import Mathlib

/-!
# Verification of the LogStream core (github.com/mariasu11/logstreamApp)

Shallow embedding of the repository's data model and the operations the
claims concern, together with theorems settling each claim.

Modelling conventions, used consistently below:

* Go `time.Time` values are modelled as `Int` (nanoseconds); the zero value
  `time.Time{}` is `0`, `t.Before u` is `t < u`, `t.After u` is `t > u`,
  `t.IsZero()` is `t = 0`.
* Go `map[string]T` values are modelled as association lists
  `List (String × T)`; map assignment replaces the binding in place when the
  key is present and appends otherwise, `delete` removes the key, lookup
  returns the first binding.  (A Go map iterates in unspecified order; the
  claims settled here never depend on iteration order of distinct keys.)
* Go `interface{}` values appearing as parsed JSON / log-entry field values
  are modelled by `GoVal` (string, number, bool, null); the type assertion
  `v.(string)` is the `GoVal.str` pattern.
* Fallible Go functions returning `error` are modelled with an
  `α × Option String` result, `none` standing for a `nil` error.
* `context.Context` cancellation checks inside storage scans are omitted:
  every theorem below is about runs in which the context is never cancelled.
-/

set_option autoImplicit false

namespace LogStream

/-- Parsed JSON / log field values (`interface{}` holding the result of
`encoding/json` unmarshalling: string, float64, bool or nil; nested
arrays/objects are not used by any claim settled here). -/
inductive GoVal where
  | str (s : String)
  | num (n : Int)
  | bool (b : Bool)
  | null
  deriving DecidableEq, Repr

/-- `pkg/models.LogEntry` (part_010 lines 10-28). `RawData` is the `raw`
attribute; timestamps are nanoseconds (`Int`). -/
structure LogEntry where
  timestamp : Int
  source : String
  level : String
  message : String
  fields : List (String × GoVal)
  rawData : String
  deriving DecidableEq, Repr

/-- Go map assignment `m[k] = v`: replace the binding in place if the key is
present, otherwise append. -/
def setField (k : String) (v : GoVal) : List (String × GoVal) → List (String × GoVal)
  | [] => [(k, v)]
  | kv :: rest => if kv.1 = k then (k, v) :: rest else kv :: setField k v rest

/-- Go map deletion `delete(m, k)`. -/
def eraseField (k : String) (fs : List (String × GoVal)) : List (String × GoVal) :=
  fs.filter (fun kv => kv.1 ≠ k)

/-- Go map lookup `v, ok := m[k]`. -/
def getF (k : String) : List (String × GoVal) → Option GoVal
  | [] => none
  | kv :: rest => if kv.1 = k then some kv.2 else getF k rest

/-- `AddFieldTransformer.Transform` (part_009 lines 33-38): `Fields[name] = value`
(the `nil`-map initialisation is the identity in the list model). -/
def addFieldTransform (name : String) (value : GoVal) (e : LogEntry) : LogEntry :=
  { e with fields := setField name value e.fields }

/-- `RemoveFieldTransformer.Transform` (part_009 lines 53-57): `delete(Fields, name)`. -/
def removeFieldTransform (name : String) (e : LogEntry) : LogEntry :=
  { e with fields := eraseField name e.fields }

/-- `RenameFieldTransformer.Transform` (part_009 lines 74-83): when the old key is
bound, assign its value to the new key and then delete the old key. -/
def renameFieldTransform (o n : String) (e : LogEntry) : LogEntry :=
  match getF o e.fields with
  | some v => { e with fields := eraseField o (setField n v e.fields) }
  | none => e

theorem setField_setField (k : String) (v : GoVal) (fs : List (String × GoVal)) :
    setField k v (setField k v fs) = setField k v fs := by
  induction fs with
  | nil => simp [setField]
  | cons kv rest ih =>
    by_cases h : kv.1 = k
    · simp [setField, h]
    · simp [setField, h, ih]

theorem eraseField_eraseField (k : String) (fs : List (String × GoVal)) :
    eraseField k (eraseField k fs) = eraseField k fs := by
  simp [eraseField, List.filter_filter]

theorem getF_eraseField (k : String) (fs : List (String × GoVal)) :
    getF k (eraseField k fs) = none := by
  induction fs with
  | nil => rfl
  | cons kv rest ih =>
    by_cases h : kv.1 = k
    · simpa [eraseField, h] using ih
    · simpa [eraseField, getF, h] using ih

/-- C9. The add-field, remove-field and rename-field transformers are
idempotent: a second application of the same transformer leaves the entry
unchanged. -/
theorem transformers_idempotent (name : String) (value : GoVal) (o n : String)
    (e : LogEntry) :
    addFieldTransform name value (addFieldTransform name value e)
      = addFieldTransform name value e ∧
    removeFieldTransform name (removeFieldTransform name e)
      = removeFieldTransform name e ∧
    renameFieldTransform o n (renameFieldTransform o n e)
      = renameFieldTransform o n e := by
  refine ⟨?_, ?_, ?_⟩
  · simp [addFieldTransform, setField_setField]
  · simp [removeFieldTransform, eraseField_eraseField]
  · unfold renameFieldTransform
    cases h : getF o e.fields with
    | none => simp [renameFieldTransform, h]
    | some v => simp [renameFieldTransform, getF_eraseField]

/-! ## String helpers (Go `strings` package operations used by the code) -/

/-- `needle` is a leading segment of `hay`. -/
def leadsWith : List Char → List Char → Bool
  | [], _ => true
  | _ :: _, [] => false
  | a :: as, b :: bs => a = b && leadsWith as bs

/-- `needle` occurs contiguously inside `hay`. -/
def occursIn (needle : List Char) (hay : List Char) : Bool :=
  match hay with
  | [] => leadsWith needle []
  | _ :: rest => leadsWith needle hay || occursIn needle rest

/-- Go `strings.Contains(s, sub)`. -/
def goContains (s sub : String) : Bool :=
  occursIn sub.data s.data

/-- ASCII lower-casing of one character. -/
def lowerChar (c : Char) : Char :=
  if 65 ≤ c.toNat ∧ c.toNat ≤ 90 then Char.ofNat (c.toNat + 32) else c

/-- Go `strings.ToLower` (ASCII case folding suffices for every claim here;
the Go original additionally folds non-ASCII letters, which no claim uses). -/
def goLower (s : String) : String :=
  String.mk (s.data.map lowerChar)

/-- Go `strings.EqualFold` (case-insensitive equality). -/
def eqFold (a b : String) : Bool :=
  goLower a = goLower b

/-! ## The `models.Query` record (src/pkg/models/query.go lines 15-39) -/

/-- `models.Query`.  `timeFrom`/`timeTo` are the `TimeRange` bounds (0 = zero
time, i.e. unbounded); `filterFields` is the `FilterFields` map; the Go zero
value of `SortBy`/`SortOrder` is the empty string. -/
structure Query where
  timeFrom : Int := 0
  timeTo : Int := 0
  sources : List String := []
  levels : List String := []
  filter : String := ""
  filterFields : List (String × String) := []
  limit : Int := 0
  sortBy : String := ""
  sortOrder : String := ""
  deriving DecidableEq, Repr

/-! ## Text-filter predicates of the two backends -/

/-- The text-filter block of `MemoryStorage.Query` (part_006 lines 224-262):
case-insensitive substring test against the message, then source and level,
then every field key and every string-valued field value. -/
def memTextMatch (f : String) (e : LogEntry) : Bool :=
  let fl := goLower f
  if goContains (goLower e.message) fl then true
  else if goContains (goLower e.source) fl || goContains (goLower e.level) fl then true
  else e.fields.any fun kv =>
    goContains (goLower kv.1) fl ||
      (match kv.2 with
       | GoVal.str s => goContains (goLower s) fl
       | _ => false)

/-- The text-filter block of `DiskStorage.queryCache` (disk.go lines 229-246)
and of `DiskStorage.queryDisk` (disk.go lines 331-348): case-SENSITIVE
substring test against the message, else against string-valued field values
only. -/
def diskTextMatch (f : String) (e : LogEntry) : Bool :=
  if goContains e.message f then true
  else e.fields.any fun kv =>
    match kv.2 with
    | GoVal.str s => goContains s f
    | _ => false

/-- The per-entry filter decision of `MemoryStorage.Query` (part_006 lines
187-263): time range, sources (exact), levels (`strings.EqualFold`), then
the text filter.  `FilterFields` is never consulted. -/
def memEntryMatches (q : Query) (e : LogEntry) : Bool :=
  if q.timeFrom ≠ 0 ∧ e.timestamp < q.timeFrom then false
  else if q.timeTo ≠ 0 ∧ e.timestamp > q.timeTo then false
  else if q.sources ≠ [] ∧ ¬ (q.sources.any fun s => e.source = s) then false
  else if q.levels ≠ [] ∧ ¬ (q.levels.any fun l => eqFold e.level l) then false
  else if q.filter ≠ "" ∧ ¬ memTextMatch q.filter e then false
  else true

/-- The per-entry filter decision of `DiskStorage.queryCache` (disk.go lines
192-246); identical to the memory backend's except for the text filter.
`FilterFields` is never consulted. -/
def diskEntryMatches (q : Query) (e : LogEntry) : Bool :=
  if q.timeFrom ≠ 0 ∧ e.timestamp < q.timeFrom then false
  else if q.timeTo ≠ 0 ∧ e.timestamp > q.timeTo then false
  else if q.sources ≠ [] ∧ ¬ (q.sources.any fun s => e.source = s) then false
  else if q.levels ≠ [] ∧ ¬ (q.levels.any fun l => eqFold e.level l) then false
  else if q.filter ≠ "" ∧ ¬ diskTextMatch q.filter e then false
  else true

/-! ## The collect-then-sort query scans -/

/-- The result-collecting loop shared by `MemoryStorage.Query` (part_006
lines 178-272) and `DiskStorage.queryCache` (disk.go lines 183-255): scan
entries in storage order, keep those satisfying `p`, and stop right after
appending once `Limit > 0` and the result has reached `Limit` entries.
`cnt` is the number of entries collected so far. -/
def scanLim (p : LogEntry → Bool) (lim : Int) : Nat → List LogEntry → List LogEntry
  | _, [] => []
  | cnt, e :: rest =>
    if p e then
      if 0 < lim ∧ lim ≤ (cnt + 1 : Int) then [e]
      else e :: scanLim p lim (cnt + 1) rest
    else scanLim p lim cnt rest

/-- `if query.Limit > 0 { result = result[:limit] }`-style truncation. -/
def takeLim (lim : Int) (l : List LogEntry) : List LogEntry :=
  if 0 < lim then l.take lim.toNat else l

/-- Insertion step for the final `sort.Slice(result, ts_i.After(ts_j))`. -/
def insertTsDesc (e : LogEntry) : List LogEntry → List LogEntry
  | [] => [e]
  | x :: xs => if x.timestamp < e.timestamp then e :: x :: xs else x :: insertTsDesc e xs

/-- The final newest-first sort of both query paths.  (Go's `sort.Slice` is
deterministic only up to ties; this is one order it may produce and the
claims below never depend on tie order.) -/
def sortTsDesc (l : List LogEntry) : List LogEntry :=
  l.foldr insertTsDesc []

/-- `MemoryStorage.Query` (part_006 lines 170-280), as a function of the
stored entries: collect matches in storage order stopping at the limit, then
sort the collected entries newest-first.  Always returns a `nil` error. -/
def memQuery (entries : List LogEntry) (q : Query) : List LogEntry :=
  sortTsDesc (scanLim (memEntryMatches q) q.limit 0 entries)

/-- `DiskStorage.queryCache` (disk.go lines 179-263), as a function of the
in-memory hot cache. -/
def diskCacheQuery (cache : List LogEntry) (q : Query) : List LogEntry :=
  sortTsDesc (scanLim (diskEntryMatches q) q.limit 0 cache)

theorem scanLim_eq_take_filter_pos (p : LogEntry → Bool) (lim : Int) (hlim : 0 < lim)
    (l : List LogEntry) :
    ∀ cnt : Nat, (cnt : Int) < lim →
      scanLim p lim cnt l = (l.filter p).take (lim.toNat - cnt) := by
  induction l with
  | nil => intro cnt _; simp [scanLim]
  | cons e rest ih =>
    intro cnt hc
    by_cases hp : p e
    · by_cases hstop : lim ≤ (cnt + 1 : Int)
      · have h1 : lim.toNat - cnt = 1 := by omega
        simp [scanLim, hp, hstop, hlim, h1, List.take_succ_cons]
      · have hc' : ((cnt + 1 : Nat) : Int) < lim := by push_cast; omega
        have h2 : lim.toNat - cnt = (lim.toNat - (cnt + 1)) + 1 := by omega
        simp [scanLim, hp, hstop, ih (cnt + 1) hc', h2, List.take_succ_cons]
    · simp [scanLim, hp, ih cnt hc]

theorem scanLim_eq_filter_nonpos (p : LogEntry → Bool) (lim : Int) (hlim : ¬ 0 < lim)
    (l : List LogEntry) : ∀ cnt : Nat, scanLim p lim cnt l = l.filter p := by
  induction l with
  | nil => intro cnt; simp [scanLim]
  | cons e rest ih =>
    intro cnt
    by_cases hp : p e
    · have : ¬ (0 < lim ∧ lim ≤ (cnt + 1 : Int)) := fun h => hlim h.1
      simp [scanLim, hp, this, ih]
    · simp [scanLim, hp, ih]

theorem scanLim_eq_takeLim_filter (p : LogEntry → Bool) (lim : Int) (l : List LogEntry) :
    scanLim p lim 0 l = takeLim lim (l.filter p) := by
  by_cases h : 0 < lim
  · have := scanLim_eq_take_filter_pos p lim h l 0 (by exact_mod_cast h)
    simpa [takeLim, h] using this
  · simp [takeLim, h, scanLim_eq_filter_nonpos p lim h l 0]

/-- C2 (amended). Both query paths collect matching entries in storage order,
stopping as soon as `limit` entries have been collected (when `limit > 0`),
and only then sort the collected entries by timestamp, newest first;
`sort_by`/`sort_order` play no role.  Truncation therefore happens before
sorting. -/
theorem query_collects_then_sorts (entries : List LogEntry) (q : Query) :
    memQuery entries q
        = sortTsDesc (takeLim q.limit (entries.filter (memEntryMatches q))) ∧
    diskCacheQuery entries q
        = sortTsDesc (takeLim q.limit (entries.filter (diskEntryMatches q))) := by
  constructor
  · unfold memQuery
    rw [scanLim_eq_takeLim_filter]
  · unfold diskCacheQuery
    rw [scanLim_eq_takeLim_filter]

/-- The two stored entries of the C2 counterexample: both match the default
query; `entryOld` is stored first and has the older timestamp. -/
def entryOld : LogEntry :=
  { timestamp := 1, source := "app1", level := "info",
    message := "first", fields := [], rawData := "" }

def entryNew : LogEntry :=
  { timestamp := 2, source := "app1", level := "info",
    message := "second", fields := [], rawData := "" }

/-- A query with the default limit-1 / timestamp / desc parameters of the
claim ("under the defaults"). -/
def limitOneQuery : Query :=
  { limit := 1, sortBy := "timestamp", sortOrder := "desc" }

/-- C2 (counterexample). With two matching stored entries and `limit 1`,
`MemoryStorage.Query` returns the entry stored first (the OLDEST), while the
claim — sort newest-first, then truncate — demands the newest one. -/
theorem query_limit_before_sort_counterexample :
    memQuery [entryOld, entryNew] limitOneQuery = [entryOld] ∧
    takeLim limitOneQuery.limit
        (sortTsDesc (List.filter (memEntryMatches limitOneQuery) [entryOld, entryNew]))
      = [entryNew] ∧
    entryOld ≠ entryNew := by
  refine ⟨by decide, by decide, by decide⟩

/-! ## The spec-side text-filter predicate (for claim C1) -/

/-- Written from the spec's words (spec.md §3 / §4.3 step 4): case-insensitive
substring test of the filter against message, source, level, any field key,
or any string-valued field value. -/
def specCaseInsensitiveTextMatch (f : String) (e : LogEntry) : Bool :=
  goContains (goLower e.message) (goLower f) ||
  goContains (goLower e.source) (goLower f) ||
  goContains (goLower e.level) (goLower f) ||
  e.fields.any fun kv =>
    goContains (goLower kv.1) (goLower f) ||
      (match kv.2 with
       | GoVal.str s => goContains (goLower s) (goLower f)
       | _ => false)

/-- C1 (amended). The memory backend's text filter IS the spec's
case-insensitive test over message/source/level/keys/string values, but the
disk backend's is a case-sensitive test over the message and string-valued
field values only. -/
theorem textFilter_semantics (f : String) (e : LogEntry) :
    memTextMatch f e = specCaseInsensitiveTextMatch f e ∧
    diskTextMatch f e
      = (goContains e.message f ||
          e.fields.any fun kv =>
            match kv.2 with
            | GoVal.str s => goContains s f
            | _ => false) := by
  constructor
  · unfold memTextMatch specCaseInsensitiveTextMatch
    cases h1 : goContains (goLower e.message) (goLower f) <;>
      cases h2 : goContains (goLower e.source) (goLower f) <;>
        cases h3 : goContains (goLower e.level) (goLower f) <;>
          simp [h1, h2, h3]
  · unfold diskTextMatch
    cases h : goContains e.message f <;> simp [h]

/-- The C1 counterexample entry: its message contains "connection" only
case-insensitively. -/
def connEntry : LogEntry :=
  { timestamp := 5, source := "app1", level := "info",
    message := "Connection refused", fields := [], rawData := "" }

def connQuery : Query :=
  { filter := "connection", limit := 100 }

/-- C1 (counterexample). `connEntry` passes the time/source/level filters and
matches the text filter case-insensitively (in its message), so the claim
demands that both backends include it; `DiskStorage.queryCache` excludes it
(its test is case-sensitive), while `MemoryStorage.Query` includes it. -/
theorem diskTextFilter_counterexample :
    specCaseInsensitiveTextMatch connQuery.filter connEntry = true ∧
    memQuery [connEntry] connQuery = [connEntry] ∧
    diskCacheQuery [connEntry] connQuery = [] := by
  refine ⟨by decide, by decide, by decide⟩

/-! ## Claim C3: `filter_fields` -/

/-- Written from the spec's words (spec.md §3, §4.3 step 5): every
(field, substring) pair of `filter_fields` must find the named field with a
value containing the substring. -/
def specFilterFieldsMatch (ff : List (String × String)) (e : LogEntry) : Bool :=
  ff.all fun kv =>
    match getF kv.1 e.fields with
    | some (GoVal.str s) => goContains s kv.2
    | _ => false

def statusEntry : LogEntry :=
  { timestamp := 7, source := "web", level := "info",
    message := "request done", fields := [("status", GoVal.str "404")],
    rawData := "" }

def statusQuery : Query :=
  { filterFields := [("status", "500")], limit := 100 }

/-- C3 (counterexample). `statusEntry`'s `status` field is "404", which does
not contain the required substring "500", so the claim demands exclusion;
both backends nevertheless return the entry — neither ever reads
`filter_fields`. -/
theorem filterFields_ignored_counterexample :
    specFilterFieldsMatch statusQuery.filterFields statusEntry = false ∧
    memQuery [statusEntry] statusQuery = [statusEntry] ∧
    diskCacheQuery [statusEntry] statusQuery = [statusEntry] := by
  refine ⟨by decide, by decide, by decide⟩

/-- C3 (amended). Query results of both backends are entirely independent of
the `filter_fields` mapping: replacing it by anything else leaves the result
unchanged. -/
theorem query_ignores_filterFields (entries : List LogEntry) (q : Query)
    (ff : List (String × String)) :
    memQuery entries { q with filterFields := ff } = memQuery entries q ∧
    diskCacheQuery entries { q with filterFields := ff } = diskCacheQuery entries q := by
  exact ⟨rfl, rfl⟩

/-! ## MemoryStorage state and operations (part_006 lines 132-366) -/

/-- The mutable state of a `MemoryStorage` (part_006 lines 133-137):
the entry slice and the configured capacity (`capacity` is a Go `int`). -/
structure MemState where
  entries : List LogEntry
  capacity : Int
  deriving DecidableEq, Repr

/-- `MemoryStorage.Store` (part_006 lines 154-167): at capacity the oldest
entry (`entries[0]`) is removed, then the new entry is appended. -/
def memStore (s : MemState) (e : LogEntry) : MemState :=
  if (s.entries.length : Int) ≥ s.capacity then
    { s with entries := s.entries.drop 1 ++ [e] }
  else
    { s with entries := s.entries ++ [e] }

/-- `MemoryStorage.Store` with its error result: the Go function always
returns `nil`. -/
def memStoreE (s : MemState) (e : LogEntry) : MemState × Option String :=
  (memStore s e, none)

/-- `MemoryStorage.Query` with its error result (`nil` whenever the context
is not cancelled). -/
def memQueryE (s : MemState) (q : Query) : List LogEntry × Option String :=
  (memQuery s.entries q, none)

/-- `MemoryStorage.GetSources` (part_006 lines 283-309): the distinct sources
(the Go original returns them in unspecified map order; first-appearance
order is one such order, and no claim depends on it). -/
def memGetSourcesE (s : MemState) : List String × Option String :=
  (s.entries.foldl
    (fun acc e => if acc.contains e.source then acc else acc ++ [e.source]) [],
   none)

/-- `storage.StorageStats` (part_006 lines 29-37) as computed by
`MemoryStorage.GetStats`; `CompressionRatio` is the floating-point constant
`1.0` there and is not represented. -/
structure MemStats where
  totalEntries : Int
  oldestEntry : Int
  newestEntry : Int
  entriesBySource : List (String × Int)
  entriesByLevel : List (String × Int)
  storageSize : Int
  deriving DecidableEq, Repr

/-- Go `m[k]++` on a counter map. -/
def bumpCount (k : String) : List (String × Int) → List (String × Int)
  | [] => [(k, 1)]
  | kv :: rest => if kv.1 = k then (kv.1, kv.2 + 1) :: rest else kv :: bumpCount k rest

/-- `MemoryStorage.GetStats` (part_006 lines 312-356): total count,
oldest/newest timestamp, per-source and per-level counts, and the
`len * 500` size estimate.  Always returns a `nil` error. -/
def memGetStatsE (s : MemState) : MemStats × Option String :=
  let st0 : MemStats :=
    { totalEntries := (s.entries.length : Int), oldestEntry := 0, newestEntry := 0,
      entriesBySource := [], entriesByLevel := [], storageSize := 0 }
  let st := s.entries.foldl
    (fun st e =>
      { st with
        oldestEntry :=
          if st.oldestEntry = 0 ∨ e.timestamp < st.oldestEntry then e.timestamp
          else st.oldestEntry,
        newestEntry :=
          if st.newestEntry = 0 ∨ e.timestamp > st.newestEntry then e.timestamp
          else st.newestEntry,
        entriesBySource := bumpCount e.source st.entriesBySource,
        entriesByLevel := bumpCount e.level st.entriesByLevel }) st0
  ({ st with storageSize := (s.entries.length : Int) * 500 }, none)

/-- `MemoryStorage.Close` (part_006 lines 359-366): clears the entries and
returns `nil`; no closed flag is recorded anywhere. -/
def memCloseE (s : MemState) : MemState × Option String :=
  ({ s with entries := [] }, none)

theorem memStore_capacity (s : MemState) (e : LogEntry) :
    (memStore s e).capacity = s.capacity := by
  unfold memStore; split <;> rfl

theorem memStore_length_le (s : MemState) (e : LogEntry) (h1 : 1 ≤ s.capacity)
    (h2 : (s.entries.length : Int) ≤ s.capacity) :
    ((memStore s e).entries.length : Int) ≤ s.capacity := by
  unfold memStore
  by_cases hge : (s.entries.length : Int) ≥ s.capacity
  · simp only [hge, if_pos, List.length_append, List.length_drop, List.length_cons,
      List.length_nil]
    omega
  · simp only [hge, if_neg, not_false_iff, List.length_append, List.length_cons,
      List.length_nil]
    omega

theorem memFold_length_le (es : List LogEntry) :
    ∀ s : MemState, 1 ≤ s.capacity → (s.entries.length : Int) ≤ s.capacity →
      ((es.foldl memStore s).entries.length : Int) ≤ s.capacity := by
  induction es with
  | nil => intro s _ h2; simpa using h2
  | cons e rest ih =>
    intro s h1 h2
    have hcap := memStore_capacity s e
    have := ih (memStore s e) (by rw [hcap]; exact h1)
      (by rw [hcap]; exact memStore_length_le s e h1 h2)
    rw [hcap] at this
    simpa [List.foldl_cons] using this

/-- C8. For capacity `c ≥ 1`: after any sequence of `Store` operations from a
fresh `MemoryStorage`, at most `c` entries are retained; and a `Store` at
capacity removes the oldest retained entry before appending the new one. -/
theorem memoryStorage_ring_bound (c : Int) (es : List LogEntry) (s : MemState)
    (e : LogEntry) (hc : 1 ≤ c) (hcap : s.capacity = c)
    (hlen : (s.entries.length : Int) = c) :
    (((es.foldl memStore { entries := [], capacity := c }).entries.length : Int) ≤ c) ∧
    (memStore s e).entries = s.entries.drop 1 ++ [e] := by
  constructor
  · exact memFold_length_le es { entries := [], capacity := c } hc (by simp; omega)
  · unfold memStore
    rw [if_pos (by rw [hcap, hlen])]

def ringEntryA : LogEntry :=
  { timestamp := 10, source := "a", level := "info", message := "m1",
    fields := [], rawData := "" }

def ringEntryB : LogEntry :=
  { timestamp := 11, source := "b", level := "info", message := "m2",
    fields := [], rawData := "" }

/-- Witness for `memoryStorage_ring_bound` at capacity 1 with two stores. -/
theorem memoryStorage_ring_bound_witness :
    ((1 : Int) ≤ 1 ∧
      (MemState.mk [ringEntryA] 1).capacity = 1 ∧
      (((MemState.mk [ringEntryA] 1).entries.length : Int) = 1)) ∧
    ((((([ringEntryA, ringEntryB].foldl memStore { entries := [], capacity := 1 }).entries.length : Int) ≤ 1)) ∧
      (memStore (MemState.mk [ringEntryA] 1) ringEntryB).entries
        = (MemState.mk [ringEntryA] 1).entries.drop 1 ++ [ringEntryB]) :=
  ⟨⟨by decide, by decide, by decide⟩,
    memoryStorage_ring_bound 1 [ringEntryA, ringEntryB] (MemState.mk [ringEntryA] 1)
      ringEntryB (by decide) (by decide) (by decide)⟩

/-- C5 (counterexample). After `Close()` on a `MemoryStorage`, a subsequent
`Store` SUCCEEDS (returns a `nil` error) and retains the new entry — it does
not fail with a `Closed` error as the claim demands. -/
theorem close_not_final_counterexample :
    (memStoreE (memCloseE (MemState.mk [entryOld] 100)).1 entryNew).2 = none ∧
    (memStoreE (memCloseE (MemState.mk [entryOld] 100)).1 entryNew).1.entries
      = [entryNew] ∧
    (memQueryE (memCloseE (MemState.mk [entryOld] 100)).1 limitOneQuery).2 = none := by
  refine ⟨rfl, by decide, rfl⟩

/-- C5 (amended). `Close()` on `MemoryStorage` merely clears the retained
entries and returns `nil`; it is not final: every subsequent operation
(store, query, sources, stats) still succeeds with a `nil` error, `Store`
appending to the now-empty list and `Query` answering from it. -/
theorem close_clears_and_operations_succeed (s : MemState) (e : LogEntry) (q : Query) :
    (memCloseE s).2 = none ∧
    (memCloseE s).1.entries = [] ∧
    (memStoreE (memCloseE s).1 e).2 = none ∧
    (memStoreE (memCloseE s).1 e).1.entries = [e] ∧
    (memQueryE (memCloseE s).1 q).2 = none ∧
    (memQueryE (memCloseE s).1 q).1 = [] ∧
    (memGetSourcesE (memCloseE s).1).2 = none ∧
    (memGetStatsE (memCloseE s).1).2 = none := by
  refine ⟨rfl, rfl, rfl, ?_, rfl, ?_, rfl, rfl⟩
  · show (memStore { s with entries := [] } e).entries = [e]
    unfold memStore
    split <;> simp
  · show memQuery ([] : List LogEntry) q = []
    rfl

/-! ## `Engine.ParseQuery` (src/internal/query/query.go lines 99-171) -/

/-- Accumulator step for Go `strings.Fields`: split on whitespace runs,
dropping empty pieces. -/
def fieldsAux : List Char → List Char → List String
  | [], acc => if acc = [] then [] else [String.mk acc.reverse]
  | c :: cs, acc =>
    if c.isWhitespace then
      if acc = [] then fieldsAux cs []
      else String.mk acc.reverse :: fieldsAux cs []
    else fieldsAux cs (c :: acc)

/-- Go `strings.Fields`. -/
def goFields (s : String) : List String :=
  fieldsAux s.data []

/-- Accumulator step for Go `strings.Split(s, ",")`. -/
def splitCommaAux : List Char → List Char → List String
  | [], acc => [String.mk acc.reverse]
  | c :: cs, acc =>
    if c = ',' then String.mk acc.reverse :: splitCommaAux cs []
    else splitCommaAux cs (c :: acc)

/-- Go `strings.Split(s, ",")`. -/
def splitComma (s : String) : List String :=
  splitCommaAux s.data []

/-- Digit-string evaluation for `strconv.Atoi` (fails on any non-digit). -/
def digitsToNatAux : List Char → Nat → Option Nat
  | [], acc => some acc
  | c :: cs, acc =>
    if c.isDigit then digitsToNatAux cs (acc * 10 + (c.toNat - 48)) else none

/-- Go `strconv.Atoi` (the 64-bit overflow failure is not modelled; no claim
involves out-of-range literals). -/
def goAtoi (s : String) : Option Int :=
  match s.data with
  | [] => none
  | '+' :: ds =>
    match ds with
    | [] => none
    | _ => (digitsToNatAux ds 0).map Int.ofNat
  | '-' :: ds =>
    match ds with
    | [] => none
    | _ => (digitsToNatAux ds 0).map fun n => -(n : Int)
  | ds => (digitsToNatAux ds 0).map Int.ofNat

/-- Go `strings.SplitN(t, ":", 2)`: the part before the first colon and the
remainder after it. -/
def breakColon : List Char → List Char × List Char
  | [] => ([], [])
  | c :: cs =>
    if c = ':' then ([], cs)
    else
      let p := breakColon cs
      (c :: p.1, p.2)

/-- Go map assignment on the `FilterFields` map. -/
def setFF (k v : String) : List (String × String) → List (String × String)
  | [] => [(k, v)]
  | kv :: rest => if kv.1 = k then (k, v) :: rest else kv :: setFF k v rest

/-- The token loop of `Engine.ParseQuery` (query.go lines 107-168).  Each Go
`case` is one branch of the match on the lowered token; note that
`case "source:":`, `case "level:":` and `case "limit:":` have EMPTY bodies in
the source (Go `switch` does not fall through), so those tokens are consumed
without any effect. -/
def pqLoop : List String → Query → Query
  | [], q => q
  | t :: rest, q =>
    match goLower t with
    | "from" =>
      match rest with
      | [] => q
      | _ :: rest' => pqLoop rest' q
    | "to" =>
      match rest with
      | [] => q
      | _ :: rest' => pqLoop rest' q
    | "source:" => pqLoop rest q
    | "source" =>
      match rest with
      | [] => q
      | v :: rest' => pqLoop rest' { q with sources := q.sources ++ splitComma v }
    | "level:" => pqLoop rest q
    | "level" =>
      match rest with
      | [] => q
      | v :: rest' => pqLoop rest' { q with levels := q.levels ++ splitComma v }
    | "limit:" => pqLoop rest q
    | "limit" =>
      match rest with
      | [] => q
      | v :: rest' =>
        pqLoop rest'
          (match goAtoi v with
           | some n => if 0 < n then { q with limit := n } else q
           | none => q)
    | _ =>
      if t.data.contains ':' then
        pqLoop rest
          { q with
            filterFields :=
              setFF (String.mk (breakColon t.data).1) (String.mk (breakColon t.data).2)
                q.filterFields }
      else
        pqLoop rest
          { q with filter := (if q.filter ≠ "" then q.filter ++ " " else q.filter) ++ t }

/-- `Engine.ParseQuery` (query.go lines 99-171): split the input into
whitespace-separated tokens, run the token loop over the default
`{Limit: 100}` query, and return a `nil` error unconditionally. -/
def parseQuery (s : String) : Query × Option String :=
  (pqLoop (goFields s) { limit := 100 }, none)

/-- C6 (counterexample). The standalone token `source:` is matched by an
empty `case` body and Go `switch` does not fall through, so it has no
effect: in "source: app1" the csv token `app1` lands in the free-text
filter and `sources` stays empty (and likewise for `level:`), while the
claim demands `sources = ["app1"]`. -/
theorem parseQuery_colon_keyword_counterexample :
    (parseQuery "source: app1").1.sources = [] ∧
    (parseQuery "source: app1").1.filter = "app1" ∧
    (parseQuery "level: error").1.levels = [] ∧
    (parseQuery "level: error").1.filter = "error" := by
  refine ⟨by decide, by decide, by decide, by decide⟩

/-- C6 (amended). `ParseQuery` appends the token after `source` (likewise
`level`) to the query's sources (levels), but the standalone tokens
`source:`, `level:` and `limit:` are consumed with NO effect; the claim's
concrete example — which uses the space forms — holds exactly as stated. -/
theorem parseQuery_keyword_semantics (rest : List String) (q : Query) :
    pqLoop ("source:" :: rest) q = pqLoop rest q ∧
    pqLoop ("level:" :: rest) q = pqLoop rest q ∧
    pqLoop ("limit:" :: rest) q = pqLoop rest q ∧
    (parseQuery "source app1 level error connection").1
      = { sources := ["app1"], levels := ["error"], filter := "connection",
          limit := 100 } := by
  refine ⟨rfl, rfl, rfl, by decide⟩

/-- C10. `ParseQuery` always returns a query together with a `nil` error;
a non-numeric or non-positive limit value and a trailing keyword with no
following token are silently ignored, leaving the defaults in place. -/
theorem parseQuery_total_and_lenient (s : String) :
    (parseQuery s).2 = none ∧
    (parseQuery "limit abc").1.limit = 100 ∧
    (parseQuery "limit -5").1.limit = 100 ∧
    (parseQuery "limit 0").1.limit = 100 ∧
    (parseQuery "source").1.sources = [] ∧
    (parseQuery "source").1.filter = "" ∧
    (parseQuery "limit").1.limit = 100 := by
  refine ⟨rfl, by decide, by decide, by decide, by decide, by decide, by decide⟩

/-! ## The pipeline's parse stage (src/internal/processor/processor.go lines 88-98) -/

/-- The `parser.Parser` capability used by the pipeline: a cheap format sniff
and a fallible parse that rewrites the entry (`none` = the Go `error`
return; the JSON parser fails before any mutation, which this models). -/
structure PipelineParser where
  canParse : String → Bool
  parse : LogEntry → Option LogEntry

/-- The parser loop of `LogProcessor.processEntry` (processor.go lines
91-97): the first parser whose `CanParse` accepts and whose `Parse` succeeds
wins; when none does, the loop falls through WITHOUT any fallback
assignment. -/
def tryParsers : List PipelineParser → LogEntry → LogEntry
  | [], e => e
  | p :: ps, e =>
    if p.canParse e.rawData then
      match p.parse e with
      | some e' => e'
      | none => tryParsers ps e
    else tryParsers ps e

/-- The parse stage of `LogProcessor.processEntry` (processor.go lines
88-98): parsers run only when `RawData` is non-empty and the message or the
fields are empty. -/
def processParseStage (ps : List PipelineParser) (e : LogEntry) : LogEntry :=
  if e.rawData ≠ "" ∧ (e.message = "" ∨ e.fields = []) then tryParsers ps e else e

/-- Go `strings.TrimSpace`. -/
def goTrimSpace (s : String) : String :=
  String.mk (((s.data.dropWhile Char.isWhitespace).reverse.dropWhile
    Char.isWhitespace).reverse)

/-- `JSONParser.CanParse` (src/pkg/parser/json.go lines 25-31): the trimmed
input is non-empty and starts with a brace. -/
def jsonCanParse (raw : String) : Bool :=
  match (goTrimSpace raw).data with
  | [] => false
  | c :: _ => c = '\x7b'

/-- An unparseable plain-text line entering the pipeline (none of the
registered parsers' sniffs accept `"hello world"`: the JSON sniff needs a
leading brace — proved below — and none of the regex parser's four default
patterns matches a bare two-word line). -/
def plainTextEntry : LogEntry :=
  { timestamp := 0, source := "file", level := "", message := "",
    fields := [], rawData := "hello world" }

/-- C4 (code bug). `processEntry` has NO `message ← raw` fallback: when no
parser's `can_parse` accepts the raw data — or an accepting parser's `parse`
fails — the entry leaves the parse stage unchanged, its message still empty,
contradicting the spec's thrice-stated invariant (which the repository's own
`ParserRegistry.ParseLogEntry`, parser.go lines 52-56, does implement).
`pf` ranges over every possible parse behaviour of the JSON parser — it is
irrelevant because the sniff rejects the input. -/
theorem processEntry_fallback_missing (pf : LogEntry → Option LogEntry) :
    jsonCanParse plainTextEntry.rawData = false ∧
    processParseStage [⟨jsonCanParse, pf⟩] plainTextEntry = plainTextEntry ∧
    processParseStage [⟨fun _ => true, fun _ => none⟩] plainTextEntry
      = plainTextEntry ∧
    plainTextEntry.message = "" ∧
    plainTextEntry.rawData ≠ "" := by
  refine ⟨by decide, rfl, rfl, rfl, by decide⟩

/-! ## `JSONParser.Parse` (src/pkg/parser/json.go lines 34-76)

The unmarshalling step `json.Unmarshal(entry.RawData, &jsonData)` is Go
standard-library code; its result — the decoded top-level object — is the
`obj` input below.  The timestamp-coercion routine `parseTimestamp`
(json.go lines 79-118) calls the Go `time` package on string values, so the
embedding takes it as the function parameter `pt`; no claim settled here
depends on its behaviour. -/

/-- JSON string escaping as `encoding/json` performs it for the characters
occurring in the claims' inputs (quote and backslash). -/
def escapeJSONChar (c : Char) : List Char :=
  if c = '"' then ['\\', '"']
  else if c = '\\' then ['\\', '\\']
  else [c]

def quoteJSON (s : String) : String :=
  String.mk ('"' :: ((s.data.map escapeJSONChar).flatten ++ ['"']))

def serializeVal : GoVal → String
  | GoVal.str s => quoteJSON s
  | GoVal.num n => toString n
  | GoVal.bool b => if b then "true" else "false"
  | GoVal.null => "null"

/-- Byte-wise lexicographic order on keys; `json.Marshal` emits map keys in
sorted order. -/
def charListLE : List Char → List Char → Bool
  | [], _ => true
  | _ :: _, [] => false
  | a :: as, b :: bs =>
    if a.toNat < b.toNat then true
    else if b.toNat < a.toNat then false
    else charListLE as bs

def insertByKey (kv : String × GoVal) : List (String × GoVal) → List (String × GoVal)
  | [] => [kv]
  | x :: xs => if charListLE kv.1.data x.1.data then kv :: x :: xs else x :: insertByKey kv xs

def sortKeysAsc (l : List (String × GoVal)) : List (String × GoVal) :=
  l.foldr insertByKey []

/-- `json.Marshal` of the decoded object, as used for the no-message-key
fallback: keys sorted, values re-serialized. -/
def serializeObj (obj : List (String × GoVal)) : String :=
  "\x7b" ++
    String.intercalate ","
      ((sortKeysAsc obj).map fun kv => quoteJSON kv.1 ++ ":" ++ serializeVal kv.2) ++
  "\x7d"

/-- One iteration of the key switch in `JSONParser.Parse` (json.go lines
47-67).  The recognized alias sets are exactly the ones in the source:
note `@message`, `@level` and `@module` are NOT among them. -/
def jsonProcessKey (pt : LogEntry → GoVal → LogEntry) (e : LogEntry)
    (kv : String × GoVal) : LogEntry :=
  match goLower kv.1 with
  | "timestamp" | "time" | "@timestamp" | "date" => pt e kv.2
  | "message" | "msg" =>
    match kv.2 with
    | GoVal.str s => { e with message := s }
    | _ => e
  | "level" | "severity" | "loglevel" =>
    match kv.2 with
    | GoVal.str s => { e with level := s }
    | _ => e
  | "source" | "logger" | "origin" =>
    match kv.2 with
    | GoVal.str s => { e with source := s }
    | _ => e
  | _ => { e with fields := setField kv.1 kv.2 e.fields }

/-- `JSONParser.Parse` on a decoded object (json.go lines 47-73): process
every key, then store the re-serialized object as the message if no message
key set one. -/
def jsonParseObj (pt : LogEntry → GoVal → LogEntry) (obj : List (String × GoVal))
    (e : LogEntry) : LogEntry :=
  let e1 := obj.foldl (jsonProcessKey pt) e
  if e1.message = "" then { e1 with message := serializeObj obj } else e1

/-- A fresh entry holding an hclog-style line. -/
def hclogEntry : LogEntry :=
  { timestamp := 0, source := "", level := "", message := "", fields := [],
    rawData := "\x7b\"@message\":\"hi\"\x7d" }

/-- C7 (counterexample). On `{"@message":"hi"}` the JSON parser does NOT set
the message to "hi" as the claim demands: `@message` is unrecognized, flows
into `fields`, and the message becomes the re-serialized object.  (The
timestamp coercion `pt` is irrelevant — no timestamp key is present — and is
instantiated with the identity.) -/
theorem jsonParser_at_alias_counterexample :
    (jsonParseObj (fun e _ => e) [("@message", GoVal.str "hi")] hclogEntry).message
      = "\x7b\"@message\":\"hi\"\x7d" ∧
    (jsonParseObj (fun e _ => e) [("@message", GoVal.str "hi")] hclogEntry).message
      ≠ "hi" ∧
    (jsonParseObj (fun e _ => e) [("@message", GoVal.str "hi")] hclogEntry).fields
      = [("@message", GoVal.str "hi")] := by
  refine ⟨by decide, by decide, by decide⟩

/-- C7 (amended). The JSON parser maps keys case-insensitively:
`timestamp|time|@timestamp|date` invoke the timestamp coercion,
`message|msg` (string-valued) set the message, `level|severity|loglevel`
set the level, `source|logger|origin` set the source; `@message`, `@level`
and `@module` are NOT recognized and flow into `fields` like any other key;
and when no message key is present the re-serialized JSON object becomes the
message. -/
theorem jsonParser_key_mapping (pt : LogEntry → GoVal → LogEntry) (e : LogEntry)
    (v : GoVal) (s : String) :
    jsonProcessKey pt e ("date", v) = pt e v ∧
    jsonProcessKey pt e ("@TimeStamp", v) = pt e v ∧
    jsonProcessKey pt e ("MSG", GoVal.str s) = { e with message := s } ∧
    jsonProcessKey pt e ("message", GoVal.str s) = { e with message := s } ∧
    jsonProcessKey pt e ("Severity", GoVal.str s) = { e with level := s } ∧
    jsonProcessKey pt e ("loglevel", GoVal.str s) = { e with level := s } ∧
    jsonProcessKey pt e ("Logger", GoVal.str s) = { e with source := s } ∧
    jsonProcessKey pt e ("origin", GoVal.str s) = { e with source := s } ∧
    jsonProcessKey pt e ("@message", GoVal.str s)
      = { e with fields := setField "@message" (GoVal.str s) e.fields } ∧
    jsonProcessKey pt e ("@level", GoVal.str s)
      = { e with fields := setField "@level" (GoVal.str s) e.fields } ∧
    jsonProcessKey pt e ("@module", GoVal.str s)
      = { e with fields := setField "@module" (GoVal.str s) e.fields } ∧
    (jsonParseObj pt [("level", GoVal.str "info")]
        { timestamp := 0, source := "", level := "", message := "", fields := [],
          rawData := "" }).message
      = "\x7b\"level\":\"info\"\x7d" := by
  refine ⟨rfl, rfl, rfl, rfl, rfl, rfl, rfl, rfl, rfl, rfl, rfl, rfl⟩

end LogStream
